import Mathlib

/-!
Verification development for the PYNEUT neutron-transport kernel.

The Python sources (src/geometry.py, src/physics.py, src/cross_section_read.py)
are shallowly embedded below.  Geometry and cross-section table lookups are
embedded over the rationals (the code performs only field operations and
comparisons there); the scattering kinematics, which use square roots and
trigonometric functions, are embedded over the reals.  Python `None` sentinels
and exceptions are embedded with `Option` and `Except`.
-/

namespace PyNeut

/-! ## Geometry (src/geometry.py)

A primitive surface is represented by its `nearest_surface_method`: a function
from position and direction to an optional forward distance (Python may return
`None`).  A `Region` holds a containment test and a surface list that may
itself contain nested regions, mirroring the Python `Region` objects consumed
by `geometry.py`.
-/

/-- The signature of `nearest_surface_method(x, y, z, u, v, w)`:
distance or `None`. -/
abbrev SurfFn : Type := ℚ → ℚ → ℚ → ℚ → ℚ → ℚ → Option ℚ

/-- A point in space. -/
abbrev Pt : Type := ℚ × ℚ × ℚ

mutual

/-- An element of a `Region.surfaces` list: either a primitive surface or a
nested region (the Python list is heterogeneous). -/
inductive GeomEntry : Type where
  | prim (d : SurfFn) : GeomEntry
  | reg (r : Region) : GeomEntry

/-- A Python `Region`: a containment predicate plus a surface list possibly
holding nested regions. -/
inductive Region : Type where
  | mk (contains : ℚ → ℚ → ℚ → Bool) (surfaces : List GeomEntry) : Region

end

/-- The `contains` method of a region. -/
def Region.containsFn : Region → (ℚ → ℚ → ℚ → Bool)
  | .mk c _ => c

/-- The `surfaces` attribute of a region. -/
def Region.surfacesList : Region → List GeomEntry
  | .mk _ s => s

/-- Embeds `get_primitive_surfaces`: recursively extracts primitive surfaces
from a list that might contain nested regions. -/
def get_primitive_surfaces : List GeomEntry → List SurfFn
  | [] => []
  | GeomEntry.prim d :: rest => d :: get_primitive_surfaces rest
  | GeomEntry.reg (Region.mk _ ss) :: rest =>
      get_primitive_surfaces ss ++ get_primitive_surfaces rest
termination_by l => sizeOf l
decreasing_by all_goals (simp_wf; try omega)

/-- `True` when a freshly found distance is strictly smaller than the distance
of the best candidate so far (`none` plays the role of `float("inf")`). -/
def improves (d : ℚ) : Option (Pt × Region × ℚ) → Bool
  | none => true
  | some t => decide (d < t.2.2)

/-- One iteration of the inner loop of `calculate_nearest_boundary`: test one
primitive surface of `region` against the best candidate so far. -/
def stepS (x y z u v w : ℚ) (region : Region)
    (acc : Option (Pt × Region × ℚ)) (sfn : SurfFn) : Option (Pt × Region × ℚ) :=
  match sfn x y z u v w with
  | none => acc
  | some d =>
    if 0 ≤ d then
      if improves d acc then
        if region.containsFn (x + d * u) (y + d * v) (z + d * w) then
          some ((x + d * u, y + d * v, z + d * w), region, d)
        else acc
      else acc
    else acc

/-- The loop body of `calculate_nearest_boundary` for one region: flatten to
primitives and scan them. -/
def scanRegion (x y z u v w : ℚ) (acc : Option (Pt × Region × ℚ))
    (region : Region) : Option (Pt × Region × ℚ) :=
  (get_primitive_surfaces region.surfacesList).foldl
    (stepS x y z u v w region) acc

/-- Embeds `calculate_nearest_boundary(state, regions, u, v, w)`.  The Python
`(None, None, float("inf"))` escape sentinel is embedded as `none`; a hit is
`some (point, region, distance)`. -/
def calculate_nearest_boundary (x y z : ℚ) (regions : List Region)
    (u v w : ℚ) : Option (Pt × Region × ℚ) :=
  regions.foldl (scanRegion x y z u v w) none

/-- The candidate produced by one primitive surface of `region`: its forward
intersection distance, kept only when the intersection point lies inside the
(top-level) region. -/
def surfCand (x y z u v w : ℚ) (region : Region) (sfn : SurfFn) : Option ℚ :=
  match sfn x y z u v w with
  | none => none
  | some d =>
    if 0 ≤ d ∧ region.containsFn (x + d * u) (y + d * v) (z + d * w) = true
    then some d else none

/-- All surviving candidate distances of one region: forward intersections
with the recursively flattened primitives whose intersection point lies inside
the top-level region. -/
def regionCandidates (x y z u v w : ℚ) (region : Region) : List ℚ :=
  (get_primitive_surfaces region.surfacesList).filterMap
    (surfCand x y z u v w region)

/-- The running nearest distance of a candidate accumulator, with `none`
read as `float("inf")`. -/
def accDist : Option (Pt × Region × ℚ) → WithTop ℚ
  | none => ⊤
  | some t => (t.2.2 : WithTop ℚ)

lemma stepS_cases (x y z u v w : ℚ) (region : Region)
    (acc : Option (Pt × Region × ℚ)) (sfn : SurfFn) :
    stepS x y z u v w region acc sfn = acc ∨
    ∃ d, surfCand x y z u v w region sfn = some d ∧
      stepS x y z u v w region acc sfn =
        some ((x + d * u, y + d * v, z + d * w), region, d) := by
  cases h : sfn x y z u v w with
  | none => exact Or.inl (by simp [stepS, h])
  | some d =>
    by_cases h0 : 0 ≤ d
    · by_cases h1 : improves d acc = true
      · by_cases h2 : region.containsFn (x + d * u) (y + d * v) (z + d * w) = true
        · refine Or.inr ⟨d, ?_, ?_⟩ <;> simp [stepS, surfCand, h, h0, h1, h2]
        · exact Or.inl (by simp [stepS, h, h0, h1, h2])
      · exact Or.inl (by simp [stepS, h, h0, h1])
    · exact Or.inl (by simp [stepS, h, h0])

lemma stepS_le_cand (x y z u v w : ℚ) (region : Region)
    (acc : Option (Pt × Region × ℚ)) (sfn : SurfFn) (d0 : ℚ)
    (hc : surfCand x y z u v w region sfn = some d0) :
    accDist (stepS x y z u v w region acc sfn) ≤ (d0 : WithTop ℚ) := by
  cases h : sfn x y z u v w with
  | none => simp [surfCand, h] at hc
  | some d =>
    simp only [surfCand, h] at hc
    by_cases hcv : 0 ≤ d ∧ region.containsFn (x + d * u) (y + d * v) (z + d * w) = true
    · rw [if_pos hcv] at hc
      obtain rfl : d = d0 := by injection hc
      simp only [stepS, h, if_pos hcv.1]
      by_cases h1 : improves d acc = true
      · rw [if_pos h1, if_pos hcv.2]
        simp [accDist]
      · rw [if_neg h1]
        cases acc with
        | none => exact absurd (by simp [improves]) h1
        | some t =>
          simp only [improves, decide_eq_true_eq] at h1
          simp only [accDist, WithTop.coe_le_coe]
          exact le_of_not_lt h1
    · rw [if_neg hcv] at hc
      exact absurd hc (by simp)

lemma stepS_mono (x y z u v w : ℚ) (region : Region)
    (acc : Option (Pt × Region × ℚ)) (sfn : SurfFn) :
    accDist (stepS x y z u v w region acc sfn) ≤ accDist acc := by
  cases h : sfn x y z u v w with
  | none => simp [stepS, h]
  | some d =>
    by_cases h0 : 0 ≤ d
    · by_cases h1 : improves d acc = true
      · by_cases h2 : region.containsFn (x + d * u) (y + d * v) (z + d * w) = true
        · simp only [stepS, h, if_pos h0, if_pos h1, if_pos h2]
          cases acc with
          | none => simp [accDist]
          | some t =>
            simp only [improves, decide_eq_true_eq] at h1
            simp only [accDist, WithTop.coe_le_coe]
            exact le_of_lt h1
        · simp [stepS, h, h0, h1, h2]
      · simp [stepS, h, h0, h1]
    · simp [stepS, h, h0]

lemma foldS_spec (x y z u v w : ℚ) (region : Region) :
    ∀ (surfs : List SurfFn) (acc : Option (Pt × Region × ℚ)),
    (surfs.foldl (stepS x y z u v w region) acc = acc ∨
      ∃ d ∈ surfs.filterMap (surfCand x y z u v w region),
        surfs.foldl (stepS x y z u v w region) acc =
          some ((x + d * u, y + d * v, z + d * w), region, d))
    ∧ (∀ d0 ∈ surfs.filterMap (surfCand x y z u v w region),
        accDist (surfs.foldl (stepS x y z u v w region) acc) ≤ (d0 : WithTop ℚ))
    ∧ accDist (surfs.foldl (stepS x y z u v w region) acc) ≤ accDist acc := by
  intro surfs
  induction surfs with
  | nil => intro acc; refine ⟨Or.inl rfl, by simp, le_refl _⟩
  | cons s rest ih =>
    intro acc
    have hstep := stepS_cases x y z u v w region acc s
    obtain ⟨ih1, ih2, ih3⟩ := ih (stepS x y z u v w region acc s)
    simp only [List.foldl_cons]
    refine ⟨?_, ?_, ?_⟩
    · rcases ih1 with h | ⟨d, hd, hres⟩
      · rw [h]
        rcases hstep with h2 | ⟨d, hd, hres⟩
        · exact Or.inl h2
        · refine Or.inr ⟨d, ?_, hres⟩
          exact List.mem_filterMap.mpr ⟨s, List.mem_cons_self s rest, hd⟩
      · refine Or.inr ⟨d, ?_, hres⟩
        simp only [List.mem_filterMap] at hd ⊢
        obtain ⟨a, ha, hc⟩ := hd
        exact ⟨a, List.mem_cons_of_mem s ha, hc⟩
    · intro d0 hd0
      simp only [List.mem_filterMap] at hd0
      obtain ⟨a, ha, hc⟩ := hd0
      rcases List.mem_cons.mp ha with rfl | ha2
      · exact le_trans ih3 (stepS_le_cand x y z u v w region acc a d0 hc)
      · exact ih2 d0 (List.mem_filterMap.mpr ⟨a, ha2, hc⟩)
    · exact le_trans ih3 (stepS_mono x y z u v w region acc s)

lemma foldR_spec (x y z u v w : ℚ) :
    ∀ (regs : List Region) (acc : Option (Pt × Region × ℚ)),
    (regs.foldl (scanRegion x y z u v w) acc = acc ∨
      ∃ r ∈ regs, ∃ d ∈ regionCandidates x y z u v w r,
        regs.foldl (scanRegion x y z u v w) acc =
          some ((x + d * u, y + d * v, z + d * w), r, d))
    ∧ (∀ r ∈ regs, ∀ d0 ∈ regionCandidates x y z u v w r,
        accDist (regs.foldl (scanRegion x y z u v w) acc) ≤ (d0 : WithTop ℚ))
    ∧ accDist (regs.foldl (scanRegion x y z u v w) acc) ≤ accDist acc := by
  intro regs
  induction regs with
  | nil => intro acc; refine ⟨Or.inl rfl, by simp, le_refl _⟩
  | cons r rest ih =>
    intro acc
    obtain ⟨s1, s2, s3⟩ :=
      foldS_spec x y z u v w r (get_primitive_surfaces r.surfacesList) acc
    obtain ⟨ih1, ih2, ih3⟩ := ih (scanRegion x y z u v w acc r)
    simp only [List.foldl_cons]
    refine ⟨?_, ?_, ?_⟩
    · rcases ih1 with h | ⟨r2, hr2, d, hd, hres⟩
      · rw [h]
        rcases s1 with h2 | ⟨d, hd, hres⟩
        · exact Or.inl h2
        · exact Or.inr ⟨r, List.mem_cons_self r rest, d, hd, hres⟩
      · exact Or.inr ⟨r2, List.mem_cons_of_mem r hr2, d, hd, hres⟩
    · intro r2 hr2 d0 hd0
      rcases List.mem_cons.mp hr2 with rfl | hmem
      · exact le_trans ih3 (s2 d0 hd0)
      · exact ih2 r2 hmem d0 hd0
    · exact le_trans ih3 s3

/-- C1: `calculate_nearest_boundary` returns the minimum surviving candidate.
Candidates of a region are the forward (distance at least 0) intersection
distances of the recursively flattened primitive surfaces whose intersection
point lies inside the top-level region (`regionCandidates`).  The result is
the `(None, None, inf)` sentinel (embedded as `none`) exactly when no
candidate survives; otherwise it is `some (point, region, distance)` where
`distance` is a surviving candidate of the returned top-level region, minimal
among all surviving candidates of all regions, and `point` lies at that
distance along the ray. -/
theorem calculate_nearest_boundary_spec (x y z u v w : ℚ) (regions : List Region) :
    (calculate_nearest_boundary x y z regions u v w = none ↔
      ∀ r ∈ regions, regionCandidates x y z u v w r = [])
    ∧ (∀ p r d, calculate_nearest_boundary x y z regions u v w = some (p, r, d) →
        r ∈ regions ∧ d ∈ regionCandidates x y z u v w r
        ∧ p = (x + d * u, y + d * v, z + d * w)
        ∧ ∀ r2 ∈ regions, ∀ d2 ∈ regionCandidates x y z u v w r2, d ≤ d2) := by
  obtain ⟨h1, h2, _⟩ := foldR_spec x y z u v w regions none
  constructor
  · constructor
    · intro hnone r hr
      by_contra hne
      obtain ⟨d0, hd0⟩ := List.exists_mem_of_ne_nil _ hne
      have := h2 r hr d0 hd0
      rw [show regions.foldl (scanRegion x y z u v w) none =
          calculate_nearest_boundary x y z regions u v w from rfl, hnone] at this
      simp [accDist] at this
    · intro hall
      rcases h1 with h | ⟨r, hr, d, hd, _⟩
      · exact h
      · rw [hall r hr] at hd
        exact absurd hd (List.not_mem_nil d)
  · intro p r d hres
    rcases h1 with h | ⟨r2, hr2, d2, hd2, hres2⟩
    · rw [show regions.foldl (scanRegion x y z u v w) none =
          calculate_nearest_boundary x y z regions u v w from rfl, hres] at h
      exact absurd h (by simp)
    · rw [show regions.foldl (scanRegion x y z u v w) none =
          calculate_nearest_boundary x y z regions u v w from rfl, hres] at hres2 h2
      have heq : (p, r, d) = ((x + d2 * u, y + d2 * v, z + d2 * w), r2, d2) :=
        Option.some.inj hres2
      have hp : p = (x + d2 * u, y + d2 * v, z + d2 * w) := congrArg Prod.fst heq
      have hr : r = r2 := congrArg (fun t => t.2.1) heq
      have hd : d = d2 := congrArg (fun t => t.2.2) heq
      subst hd; subst hr; subst hp
      refine ⟨hr2, hd2, rfl, ?_⟩
      intro r3 hr3 d3 hd3
      have := h2 r3 hr3 d3 hd3
      simpa [accDist, WithTop.coe_le_coe] using this

/-- A nested region wrapping a single primitive at distance 1. -/
def wregInner : Region :=
  Region.mk (fun _ _ _ => true) [GeomEntry.prim (fun _ _ _ _ _ _ => some 1)]

/-- A top-level composite region: one primitive at distance 3 plus a nested
region whose primitive is at distance 1. -/
def wreg : Region :=
  Region.mk (fun _ _ _ => true)
    [GeomEntry.prim (fun _ _ _ _ _ _ => some 3), GeomEntry.reg wregInner]

theorem calculate_nearest_boundary_spec_witness :
    calculate_nearest_boundary 0 0 0 [wreg] 1 0 0 = some ((1, 0, 0), wreg, 1)
    ∧ (wreg ∈ [wreg] ∧ (1 : ℚ) ∈ regionCandidates 0 0 0 1 0 0 wreg
       ∧ (((1 : ℚ), (0 : ℚ), (0 : ℚ)) : Pt) = (0 + 1 * 1, 0 + 1 * 0, 0 + 1 * 0)
       ∧ ∀ r2 ∈ [wreg], ∀ d2 ∈ regionCandidates 0 0 0 1 0 0 r2, (1 : ℚ) ≤ d2) := by
  have hres : calculate_nearest_boundary 0 0 0 [wreg] 1 0 0 = some ((1, 0, 0), wreg, 1) := by
    norm_num [calculate_nearest_boundary, scanRegion, get_primitive_surfaces, stepS,
      improves, Region.containsFn, Region.surfacesList, wreg, wregInner]
  exact ⟨hres, (calculate_nearest_boundary_spec 0 0 0 1 0 0 [wreg]).2 (1, 0, 0) wreg 1 hres⟩

/-! ## Cross-section lookup (src/cross_section_read.py)

The on-disk HDF5 layout is embedded as follows: a `RxData` is the reaction
group `<ELEMENT>/reactions/reaction_<MT:03d>/294K` (optional local `energy`
grid, `xs` values, `threshold_idx` attribute defaulting to 0); an `H5File` is
one element file (reaction groups keyed by MT number, optional global energy
grid at `<ELEMENT>/energy/294K`); the reader base path is a map from element
name to the file, `none` when `os.path.exists` fails.  Python exceptions are
embedded as `Except PyErr`; grid values are embedded over a linear ordered
field (`ℚ` for executable witnesses, `ℝ` where the kinematics are involved).
-/

/-- The Python exception kinds that `get_cross_section` can raise or catch. -/
inductive PyErr : Type where
  | valueError (msg : String)
  | fileNotFoundError (msg : String)
  | osError (msg : String)
  | keyError (msg : String)
  | indexError (msg : String)
  | runtimeError (msg : String)

/-- A reaction group: optional local energy grid, cross-section values, and
the `threshold_idx` attribute (0 when absent). -/
structure RxData (α : Type) where
  energy : Option (List α)
  xs : List α
  thresholdIdx : ℕ

/-- One element data file. -/
structure H5File (α : Type) where
  reactions : ℕ → Option (RxData α)
  globalEnergy : Option (List α)

/-- Python `str.isalnum`: nonempty and all characters alphanumeric. -/
def isalnumStr (s : String) : Bool :=
  !s.isEmpty && s.toList.all Char.isAlphanum

/-- Python list slicing `xs[:k]` for an `int` k that may be negative
(a negative k drops elements from the end). -/
def pyTake {α : Type} (xs : List α) (k : ℤ) : List α :=
  if 0 ≤ k then xs.take k.toNat else xs.take (xs.length - k.natAbs)

/-- The effective reaction value array in the global-grid branch: the stored
array, truncated by `xs_data[:len_to_use]` when the threshold offset would
run past the end of the global grid. -/
def xsEffective {α : Type} (xs : List α) (t geLen : ℕ) : List α :=
  if geLen < t + xs.length then pyTake xs ((geLen : ℤ) - (t : ℤ)) else xs

/-- The slice `global_energy[threshold_idx : threshold_idx + len(xs_data)]`. -/
def relevantEnergies {α : Type} (ge : List α) (t len : ℕ) : List α :=
  (ge.drop t).take len

/-- `np.interp` on a strictly increasing sample grid: clamps below the first
and above the last grid point, interpolates linearly in between. -/
def interp {α : Type} [LinearOrderedField α] (x : α) (xp fp : List α) : α :=
  match xp, fp with
  | [_], y0 :: _ => y0
  | x0 :: x1 :: xr, y0 :: y1 :: yr =>
      if x ≤ x0 then y0
      else if x ≤ x1 then y0 + (y1 - y0) * (x - x0) / (x1 - x0)
      else interp x (x1 :: xr) (y1 :: yr)
  | _, _ => 0

/-- `np.interp` including its input validation errors. -/
def npInterp {α : Type} [LinearOrderedField α] (x : α) (xp fp : List α) :
    Except PyErr α :=
  if xp.length = 0 then
    Except.error (PyErr.valueError "array of sample points is empty")
  else if xp.length ≠ fp.length then
    Except.error (PyErr.valueError "fp and xp are not of the same length")
  else Except.ok (interp x xp fp)

/-- Exception classes caught by `except (OSError, KeyError, ValueError)`. -/
def catchable : PyErr → Bool
  | PyErr.osError _ => true
  | PyErr.keyError _ => true
  | PyErr.valueError _ => true
  | _ => false

/-- The message text of an exception, as tested by the handler. -/
def errMsg : PyErr → String
  | PyErr.valueError m => m
  | PyErr.fileNotFoundError m => m
  | PyErr.osError m => m
  | PyErr.keyError m => m
  | PyErr.indexError m => m
  | PyErr.runtimeError m => m

/-- Boolean prefix test on character lists. -/
def charPre : List Char → List Char → Bool
  | [], _ => true
  | _ :: _, [] => false
  | a :: as, b :: bs => a == b && charPre as bs

/-- Boolean infix test on character lists. -/
def charInfix (pat : List Char) : List Char → Bool
  | [] => charPre pat []
  | b :: bs => charPre pat (b :: bs) || charInfix pat bs

/-- Python `pat in s` substring containment. -/
def containsSub (s pat : String) : Bool :=
  charInfix pat.toList s.toList

/-- The body of the `try` block of `get_cross_section`: resolve the reaction
group and interpolate on the local grid (CASE A) or the global grid with
threshold offset (CASE B). -/
def readBody {α : Type} [LinearOrderedField α] (f : H5File α) (element : String)
    (mt : ℕ) (energy : α) : Except PyErr α :=
  match f.reactions mt with
  | none => Except.ok 0
  | some rx =>
    match rx.energy with
    | some grid =>
      match grid with
      | [] => Except.error (PyErr.indexError "index 0 is out of bounds for axis 0 with size 0")
      | e0 :: _ =>
        if energy < e0 ∨ energy > grid.getLastD 0 then Except.ok 0
        else npInterp energy grid rx.xs
    | none =>
      match f.globalEnergy with
      | none =>
          Except.error (PyErr.keyError
            ("Energy data path " ++ element ++ "/energy/294K not found."))
      | some ge =>
        let xs1 := xsEffective rx.xs rx.thresholdIdx ge.length
        let relevant := relevantEnergies ge rx.thresholdIdx xs1.length
        match relevant with
        | [] => Except.error (PyErr.indexError "index 0 is out of bounds for axis 0 with size 0")
        | e0 :: _ =>
          if energy < e0 then Except.ok 0 else npInterp energy relevant xs1

/-- The `except (OSError, KeyError, ValueError)` handler: degrade to 0 when
the message text mentions `reaction` or `not found`, otherwise re-raise as a
`RuntimeError` tagged with the element and MT number. -/
def handleRead {α : Type} [Zero α] (element : String) (mt : ℕ) (body : Except PyErr α) :
    Except PyErr α :=
  match body with
  | Except.ok v => Except.ok v
  | Except.error e =>
    if catchable e then
      if containsSub (errMsg e) "reaction" || containsSub (errMsg e) "not found" then
        Except.ok 0
      else
        Except.error (PyErr.runtimeError
          ("Error reading " ++ element ++ " MT=" ++ toString mt ++ ": " ++ errMsg e))
    else Except.error e

/-- Embeds `CrossSectionReader.get_cross_section`. -/
def get_cross_section {α : Type} [LinearOrderedField α]
    (files : String → Option (H5File α)) (element : String) (mt : ℕ)
    (energy : α) : Except PyErr α :=
  if !isalnumStr element then
    Except.error (PyErr.valueError
      "Invalid element format. Use alphanumeric characters (e.g., U235, Pb208).")
  else if !(decide (1 ≤ mt) && decide (mt ≤ 999)) then
    Except.error (PyErr.valueError "MT number must be between 1 and 999.")
  else
    match files element with
    | none =>
        Except.error (PyErr.fileNotFoundError
          ("HDF5 file for " ++ element ++ " not found."))
    | some f => handleRead element mt (readBody f element mt energy)

/-- Embeds `calculate_macroscopic_xs`: barns to cm^2 conversion with a clamp
of negative microscopic values to 0. -/
def calculate_macroscopic_xs {α : Type} [LinearOrderedField α]
    (microscopic_xs number_density : α) : α :=
  if microscopic_xs < 0 then 0
  else microscopic_xs * (1 / 10 ^ 24) * number_density

/-- Embeds `get_macroscopic_xs`. -/
def get_macroscopic_xs {α : Type} [LinearOrderedField α]
    (files : String → Option (H5File α)) (element : String) (mt : ℕ)
    (energy number_density : α) : Except PyErr α :=
  match get_cross_section files element mt energy with
  | Except.ok v => Except.ok (calculate_macroscopic_xs v number_density)
  | Except.error e => Except.error e

/-- Embeds `get_cross_sections`: scattering (MT=2), capture (MT=102) and
fission (MT=18, any error degraded to 0 by the bare `except`) macroscopic
cross sections, all looked up at `E_lookup = energy` (the lab energy), plus
their sum.  The `sampler` argument is accepted and never used, as in the
source. -/
def get_cross_sections {α σ : Type} [LinearOrderedField α]
    (files : String → Option (H5File α)) (element : String) (energy : α)
    (_sampler : σ) (number_density : α) : Except PyErr (α × α × α × α) :=
  let E_lookup := energy
  match get_macroscopic_xs files element 2 E_lookup number_density with
  | Except.error e => Except.error e
  | Except.ok Sigma_s =>
    match get_macroscopic_xs files element 102 E_lookup number_density with
    | Except.error e => Except.error e
    | Except.ok Sigma_a =>
      let Sigma_f := match get_macroscopic_xs files element 18 E_lookup number_density with
        | Except.ok v => v
        | Except.error _ => 0
      Except.ok (Sigma_s, Sigma_a, Sigma_f, Sigma_s + Sigma_a + Sigma_f)

/-- A stored reaction in the global-grid convention (no local `energy`
dataset). -/
def c2rx : RxData ℚ := { energy := none, xs := [1, 2], thresholdIdx := 0 }

/-- An element file whose reaction 2 uses the global-grid convention but whose
global energy path `<ELEMENT>/energy/294K` is absent. -/
def c2file : H5File ℚ :=
  { reactions := fun mt => if mt = 2 then some c2rx else none, globalEnergy := none }

/-- A reader base path containing only the U235 file above. -/
def c2files : String → Option (H5File ℚ) :=
  fun e => if e = "U235" then some c2file else none

/-- C2: at a valid alphanumeric element and in-range MT code whose reaction
data uses the global-grid convention, with the expected global energy path
absent, `get_cross_section` returns 0 instead of surfacing a wrapped read
error: the raised `KeyError` message ends in `not found.`, so the
message-text handler classifies it as not-found and degrades it to 0.  This
contradicts the claim that the lookup aborts with a wrapped error. -/
theorem get_cross_section_missing_energy_path_returns_zero :
    get_cross_section c2files "U235" 2 5 = Except.ok 0 := by rfl

lemma getD_mem_of_lt {α : Type} (l : List α) (i : ℕ) (d : α) (h : i < l.length) :
    l.getD i d ∈ l := by
  rw [List.getD_eq_getElem l d h]
  exact List.getElem_mem h

lemma sorted_head_le_getD (x0 : ℚ) (l : List ℚ) (hs : (x0 :: l).Sorted (· < ·))
    (i : ℕ) (h : i < (x0 :: l).length) : x0 ≤ (x0 :: l).getD i 0 := by
  cases i with
  | zero => simp
  | succ j =>
    simp only [List.getD_cons_succ]
    have hj : j < l.length := by simpa using h
    exact le_of_lt ((List.sorted_cons.mp hs).1 _ (getD_mem_of_lt l j 0 hj))

lemma sorted_getD_le_getLastD (l : List ℚ) (hs : l.Sorted (· < ·)) :
    ∀ (d : ℚ) (i : ℕ), i < l.length → l.getD i 0 ≤ l.getLastD d := by
  induction l with
  | nil => intro d i h; simp at h
  | cons x0 rest ih =>
    intro d i h
    cases rest with
    | nil =>
      cases i with
      | zero => simp
      | succ j => simp at h
    | cons x1 xr =>
      rw [List.getLastD_cons]
      cases i with
      | zero =>
        have h1 : x1 ≤ (x1 :: xr).getLastD x0 := by
          have := ih (List.sorted_cons.mp hs).2 x0 0 (by simp)
          simpa using this
        have h0 : x0 < x1 := (List.sorted_cons.mp hs).1 x1 (by simp)
        simpa using le_of_lt (lt_of_lt_of_le h0 h1)
      | succ j =>
        simp only [List.getD_cons_succ]
        exact ih (List.sorted_cons.mp hs).2 x0 j (by simpa using h)

lemma interp_at_index (xp : List ℚ) : ∀ (fp : List ℚ), xp.Sorted (· < ·) →
    xp.length = fp.length → ∀ i, i < xp.length →
    interp (xp.getD i 0) xp fp = fp.getD i 0 := by
  induction xp with
  | nil => intro fp _ _ i h; simp at h
  | cons x0 xtail ih =>
    intro fp hs hlen i hi
    cases xtail with
    | nil =>
      obtain ⟨y0, fptail, rfl⟩ : ∃ a l, fp = a :: l := by
        cases fp with
        | nil => simp at hlen
        | cons a l => exact ⟨a, l, rfl⟩
      cases i with
      | zero => simp [interp]
      | succ j => simp at hi
    | cons x1 xr =>
      obtain ⟨y0, fp1, rfl⟩ : ∃ a l, fp = a :: l := by
        cases fp with
        | nil => simp at hlen
        | cons a l => exact ⟨a, l, rfl⟩
      obtain ⟨y1, yr, rfl⟩ : ∃ a l, fp1 = a :: l := by
        cases fp1 with
        | nil => simp at hlen
        | cons a l => exact ⟨a, l, rfl⟩
      cases i with
      | zero =>
        simp only [List.getD_cons_zero, interp]
        rw [if_pos le_rfl]
      | succ j =>
        have hx0lt : x0 < (x1 :: xr).getD j 0 := by
          have hj : j < (x1 :: xr).length := by simpa using hi
          exact lt_of_lt_of_le ((List.sorted_cons.mp hs).1 x1 (by simp))
            (sorted_head_le_getD x1 xr (List.sorted_cons.mp hs).2 j hj)
        simp only [List.getD_cons_succ, interp]
        rw [if_neg (not_le.mpr hx0lt)]
        cases j with
        | zero =>
          have hne01 : x1 - x0 ≠ 0 :=
            sub_ne_zero.mpr (ne_of_gt ((List.sorted_cons.mp hs).1 x1 (by simp)))
          simp only [List.getD_cons_zero]
          rw [if_pos le_rfl]
          field_simp
        | succ k =>
          have hx1lt : x1 < (x1 :: xr).getD (k + 1) 0 := by
            simp only [List.getD_cons_succ]
            have hk : k < xr.length := by simpa using hi
            exact ((List.sorted_cons.mp (List.sorted_cons.mp hs).2).1 _
              (getD_mem_of_lt xr k 0 hk))
          rw [if_neg (not_le.mpr hx1lt)]
          have := ih (y1 :: yr) (List.sorted_cons.mp hs).2 (by simpa using hlen)
            (k + 1) (by simpa using hi)
          simpa using this

lemma interp_strict_between (xp : List ℚ) : ∀ (fp : List ℚ) (x : ℚ),
    xp.Sorted (· < ·) → xp.length = fp.length →
    ∀ i, i + 1 < xp.length → xp.getD i 0 < x → x < xp.getD (i + 1) 0 →
    interp x xp fp = fp.getD i 0 +
      (fp.getD (i + 1) 0 - fp.getD i 0) * (x - xp.getD i 0)
        / (xp.getD (i + 1) 0 - xp.getD i 0) := by
  induction xp with
  | nil => intro fp x _ _ i h; simp at h
  | cons x0 xtail ih =>
    intro fp x hs hlen i hi hlo hhi
    cases xtail with
    | nil => simp at hi
    | cons x1 xr =>
      obtain ⟨y0, fp1, rfl⟩ : ∃ a l, fp = a :: l := by
        cases fp with
        | nil => simp at hlen
        | cons a l => exact ⟨a, l, rfl⟩
      obtain ⟨y1, yr, rfl⟩ : ∃ a l, fp1 = a :: l := by
        cases fp1 with
        | nil => simp at hlen
        | cons a l => exact ⟨a, l, rfl⟩
      cases i with
      | zero =>
        simp only [List.getD_cons_zero, List.getD_cons_succ] at hlo hhi ⊢
        simp only [interp]
        rw [if_neg (not_le.mpr hlo), if_pos (le_of_lt (by simpa using hhi))]
      | succ j =>
        have hj : j + 1 < (x1 :: xr).length := by simpa using hi
        have hlo2 : (x1 :: xr).getD j 0 < x := by simpa using hlo
        have hhi2 : x < (x1 :: xr).getD (j + 1) 0 := by simpa using hhi
        have hx1 : x1 < x :=
          lt_of_le_of_lt (sorted_head_le_getD x1 xr (List.sorted_cons.mp hs).2 j
            (Nat.lt_of_succ_lt hj)) hlo2
        have hx0 : x0 < x := lt_trans ((List.sorted_cons.mp hs).1 x1 (by simp)) hx1
        simp only [interp]
        rw [if_neg (not_le.mpr hx0), if_neg (not_le.mpr hx1)]
        have := ih (y1 :: yr) x (List.sorted_cons.mp hs).2 (by simpa using hlen)
          j hj hlo2 hhi2
        simpa using this

/-- C5: for a reaction storing its own local energy grid (strictly ascending,
nonempty, value length matching), `get_cross_section` returns exactly 0
strictly below the grid minimum or strictly above the grid maximum, the
stored value exactly at a grid point, and the linear interpolation between
the two bracketing grid points otherwise. -/
theorem get_cross_section_local_spec {files : String → Option (H5File ℚ)}
    {element : String} {mt : ℕ} {f : H5File ℚ} {rx : RxData ℚ} {grid : List ℚ}
    (helem : isalnumStr element = true) (hmt1 : 1 ≤ mt) (hmt2 : mt ≤ 999)
    (hfile : files element = some f) (hrx : f.reactions mt = some rx)
    (hgrid : rx.energy = some grid)
    (hsorted : grid.Sorted (· < ·)) (hne : grid ≠ [])
    (hlen : grid.length = rx.xs.length) (E : ℚ) :
    ((E < grid.headD 0 ∨ E > grid.getLastD 0) →
        get_cross_section files element mt E = Except.ok 0)
    ∧ (∀ i, i < grid.length → E = grid.getD i 0 →
        get_cross_section files element mt E = Except.ok (rx.xs.getD i 0))
    ∧ (∀ i, i + 1 < grid.length → grid.getD i 0 < E → E < grid.getD (i + 1) 0 →
        get_cross_section files element mt E = Except.ok
          (rx.xs.getD i 0 + (rx.xs.getD (i + 1) 0 - rx.xs.getD i 0) * (E - grid.getD i 0)
            / (grid.getD (i + 1) 0 - grid.getD i 0))) := by
  obtain ⟨g0, gtail, rfl⟩ : ∃ a l, grid = a :: l := by
    cases grid with
    | nil => exact absurd rfl hne
    | cons a l => exact ⟨a, l, rfl⟩
  have hred : get_cross_section files element mt E =
      handleRead element mt
        (if E < g0 ∨ E > (g0 :: gtail).getLastD 0 then Except.ok 0
         else npInterp E (g0 :: gtail) rx.xs) := by
    simp [get_cross_section, helem, hmt1, hmt2, hfile, readBody, hrx, hgrid]
  refine ⟨?_, ?_, ?_⟩
  · intro hout
    rw [hred, if_pos (by simpa using hout)]
    rfl
  · intro i hi hEi
    have hin1 : ¬ E < g0 := by
      rw [hEi]
      exact not_lt.mpr (sorted_head_le_getD g0 gtail hsorted i hi)
    have hin2 : ¬ E > (g0 :: gtail).getLastD 0 := by
      rw [hEi]
      exact not_lt.mpr (sorted_getD_le_getLastD (g0 :: gtail) hsorted 0 i hi)
    rw [hred, if_neg (by tauto)]
    rw [npInterp, if_neg (by simp), if_neg (by simp [hlen.symm])]
    rw [hEi, interp_at_index (g0 :: gtail) rx.xs hsorted hlen i hi]
    rfl
  · intro i hi hlo hhi
    have hin1 : ¬ E < g0 :=
      not_lt.mpr (le_of_lt (lt_of_le_of_lt
        (sorted_head_le_getD g0 gtail hsorted i (Nat.lt_of_succ_lt hi)) hlo))
    have hin2 : ¬ E > (g0 :: gtail).getLastD 0 :=
      not_lt.mpr (le_of_lt (lt_of_lt_of_le hhi
        (sorted_getD_le_getLastD (g0 :: gtail) hsorted 0 (i + 1) hi)))
    rw [hred, if_neg (by tauto)]
    rw [npInterp, if_neg (by simp), if_neg (by simp [hlen.symm])]
    rw [interp_strict_between (g0 :: gtail) rx.xs E hsorted hlen i hi hlo hhi]
    rfl

/-- A local-grid reaction: grid `[1, 2, 5]`, values `[10, 20, 50]`. -/
def c5rx : RxData ℚ := { energy := some [1, 2, 5], xs := [10, 20, 50], thresholdIdx := 0 }

/-- An element file holding the local-grid reaction above at MT=2. -/
def c5file : H5File ℚ :=
  { reactions := fun mt => if mt = 2 then some c5rx else none, globalEnergy := none }

/-- A reader base path containing only the H1 file above. -/
def c5files : String → Option (H5File ℚ) :=
  fun e => if e = "H1" then some c5file else none

theorem get_cross_section_local_spec_witness :
    (isalnumStr "H1" = true ∧ ([1, 2, 5] : List ℚ).Sorted (· < ·))
    ∧ get_cross_section c5files "H1" 2 0 = Except.ok 0
    ∧ get_cross_section c5files "H1" 2 2 = Except.ok (([10, 20, 50] : List ℚ).getD 1 0)
    ∧ get_cross_section c5files "H1" 2 3 = Except.ok
        (([10, 20, 50] : List ℚ).getD 1 0 +
          (([10, 20, 50] : List ℚ).getD 2 0 - ([10, 20, 50] : List ℚ).getD 1 0) *
            ((3 : ℚ) - ([1, 2, 5] : List ℚ).getD 1 0)
            / (([1, 2, 5] : List ℚ).getD 2 0 - ([1, 2, 5] : List ℚ).getD 1 0)) := by
  have hs : ([1, 2, 5] : List ℚ).Sorted (· < ·) := by
    simp [List.sorted_cons]
    norm_num
  refine ⟨⟨by decide, hs⟩, ?_, ?_, ?_⟩
  · exact (@get_cross_section_local_spec c5files "H1" 2 c5file c5rx [1, 2, 5]
      (by decide) (by decide) (by decide) rfl rfl rfl hs (by simp) rfl 0).1
      (Or.inl (by norm_num))
  · exact (@get_cross_section_local_spec c5files "H1" 2 c5file c5rx [1, 2, 5]
      (by decide) (by decide) (by decide) rfl rfl rfl hs (by simp) rfl 2).2.1
      1 (by decide) (by norm_num)
  · exact (@get_cross_section_local_spec c5files "H1" 2 c5file c5rx [1, 2, 5]
      (by decide) (by decide) (by decide) rfl rfl rfl hs (by simp) rfl 3).2.2
      1 (by decide) (by norm_num) (by norm_num)

/-- C6: in the global-grid convention with a threshold index inside the grid
and a nonempty stored array, the effective array is clipped to fit the global
grid (`t + len ≤ grid length`, so no out-of-bounds access), the energy slice
has the same length as the effective array, energy strictly below the global
grid value at the threshold index yields 0, and energy at or above it yields
the linear interpolation against the clipped slice. -/
theorem get_cross_section_global_spec {files : String → Option (H5File ℚ)}
    {element : String} {mt : ℕ} {f : H5File ℚ} {rx : RxData ℚ} {ge : List ℚ}
    (helem : isalnumStr element = true) (hmt1 : 1 ≤ mt) (hmt2 : mt ≤ 999)
    (hfile : files element = some f) (hrx : f.reactions mt = some rx)
    (hnoloc : rx.energy = none) (hge : f.globalEnergy = some ge)
    (ht : rx.thresholdIdx < ge.length) (hxs : rx.xs ≠ []) (E : ℚ) :
    (xsEffective rx.xs rx.thresholdIdx ge.length).length
        = min rx.xs.length (ge.length - rx.thresholdIdx)
    ∧ rx.thresholdIdx + (xsEffective rx.xs rx.thresholdIdx ge.length).length ≤ ge.length
    ∧ (relevantEnergies ge rx.thresholdIdx
        (xsEffective rx.xs rx.thresholdIdx ge.length).length).length
        = (xsEffective rx.xs rx.thresholdIdx ge.length).length
    ∧ (E < ge.getD rx.thresholdIdx 0 →
        get_cross_section files element mt E = Except.ok 0)
    ∧ (ge.getD rx.thresholdIdx 0 ≤ E →
        get_cross_section files element mt E = Except.ok
          (interp E
            (relevantEnergies ge rx.thresholdIdx
              (xsEffective rx.xs rx.thresholdIdx ge.length).length)
            (xsEffective rx.xs rx.thresholdIdx ge.length))) := by
  have hxslen : 1 ≤ rx.xs.length := by
    cases hx : rx.xs with
    | nil => exact absurd hx hxs
    | cons a l => simp [hx]
  have hL : (xsEffective rx.xs rx.thresholdIdx ge.length).length
      = min rx.xs.length (ge.length - rx.thresholdIdx) := by
    rw [xsEffective]
    by_cases hc : ge.length < rx.thresholdIdx + rx.xs.length
    · rw [if_pos hc, pyTake, if_pos (by omega)]
      rw [List.length_take]
      have : ((ge.length : ℤ) - (rx.thresholdIdx : ℤ)).toNat
          = ge.length - rx.thresholdIdx := by omega
      rw [this]
      omega
    · rw [if_neg hc]
      omega
  have hL1 : 1 ≤ (xsEffective rx.xs rx.thresholdIdx ge.length).length := by
    rw [hL]; omega
  have hLle : (xsEffective rx.xs rx.thresholdIdx ge.length).length
      ≤ ge.length - rx.thresholdIdx := by
    rw [hL]; omega
  have hrel : (relevantEnergies ge rx.thresholdIdx
      (xsEffective rx.xs rx.thresholdIdx ge.length).length).length
      = (xsEffective rx.xs rx.thresholdIdx ge.length).length := by
    rw [relevantEnergies, List.length_take, List.length_drop]
    omega
  have hhead : (relevantEnergies ge rx.thresholdIdx
      (xsEffective rx.xs rx.thresholdIdx ge.length).length).getD 0 0
      = ge.getD rx.thresholdIdx 0 := by
    have h0 : 0 < (relevantEnergies ge rx.thresholdIdx
        (xsEffective rx.xs rx.thresholdIdx ge.length).length).length := by
      rw [hrel]; omega
    rw [List.getD_eq_getElem _ 0 h0,
      List.getD_eq_getElem _ 0 (by omega : rx.thresholdIdx < ge.length)]
    simp [relevantEnergies, List.getElem_take, List.getElem_drop]
  obtain ⟨e0, rtail, hsplit⟩ : ∃ a l,
      relevantEnergies ge rx.thresholdIdx
        (xsEffective rx.xs rx.thresholdIdx ge.length).length = a :: l := by
    cases hre : relevantEnergies ge rx.thresholdIdx
        (xsEffective rx.xs rx.thresholdIdx ge.length).length with
    | nil => rw [hre] at hrel; simp at hrel; omega
    | cons a l => exact ⟨a, l, rfl⟩
  have he0 : e0 = ge.getD rx.thresholdIdx 0 := by
    rw [hsplit] at hhead
    simpa using hhead
  have hlen2 : (e0 :: rtail).length = (xsEffective rx.xs rx.thresholdIdx ge.length).length := by
    rw [← hsplit]; exact hrel
  refine ⟨hL, by omega, hrel, ?_, ?_⟩
  · intro hlt
    have hlt2 : E < e0 := by rw [he0]; exact hlt
    simp [get_cross_section, helem, hmt1, hmt2, hfile, readBody, hrx, hnoloc, hge,
      hsplit, hlt2, handleRead]
  · intro hge2
    have hge3 : ¬ E < e0 := by rw [he0]; exact not_lt.mpr hge2
    have hne0 : ¬ (e0 :: rtail).length = 0 := by simp
    have hxne : ¬ xsEffective rx.xs rx.thresholdIdx ge.length = [] := by
      intro hh
      rw [hh] at hL1
      simp at hL1
    simp only [get_cross_section, helem, Bool.not_true, Bool.false_eq_true, if_false,
      hmt1, hmt2, decide_True, Bool.and_self, Bool.not_false, hfile, readBody, hrx,
      hnoloc, hge, hsplit, if_neg hge3, npInterp, hlen2, if_neg hne0]
    rw [← hsplit]
    rw [if_neg (by omega), if_neg (by simp)]
    rfl

/-- A global-grid reaction whose stored array, offset by its threshold index,
overruns the global grid (2 + 3 > 4). -/
def c6rx : RxData ℚ := { energy := none, xs := [10, 20, 30], thresholdIdx := 2 }

/-- An element file with a 4-point global energy grid. -/
def c6file : H5File ℚ :=
  { reactions := fun mt => if mt = 2 then some c6rx else none,
    globalEnergy := some [1, 2, 3, 4] }

/-- A reader base path containing only the U238 file above. -/
def c6files : String → Option (H5File ℚ) :=
  fun e => if e = "U238" then some c6file else none

theorem get_cross_section_global_spec_witness :
    (xsEffective c6rx.xs c6rx.thresholdIdx ([1, 2, 3, 4] : List ℚ).length).length
        = min c6rx.xs.length (([1, 2, 3, 4] : List ℚ).length - c6rx.thresholdIdx)
    ∧ c6rx.thresholdIdx +
        (xsEffective c6rx.xs c6rx.thresholdIdx ([1, 2, 3, 4] : List ℚ).length).length
        ≤ ([1, 2, 3, 4] : List ℚ).length
    ∧ (relevantEnergies ([1, 2, 3, 4] : List ℚ) c6rx.thresholdIdx
        (xsEffective c6rx.xs c6rx.thresholdIdx ([1, 2, 3, 4] : List ℚ).length).length).length
        = (xsEffective c6rx.xs c6rx.thresholdIdx ([1, 2, 3, 4] : List ℚ).length).length
    ∧ ((2 : ℚ) < ([1, 2, 3, 4] : List ℚ).getD c6rx.thresholdIdx 0 →
        get_cross_section c6files "U238" 2 2 = Except.ok 0)
    ∧ (([1, 2, 3, 4] : List ℚ).getD c6rx.thresholdIdx 0 ≤ (2 : ℚ) →
        get_cross_section c6files "U238" 2 2 = Except.ok
          (interp 2
            (relevantEnergies ([1, 2, 3, 4] : List ℚ) c6rx.thresholdIdx
              (xsEffective c6rx.xs c6rx.thresholdIdx ([1, 2, 3, 4] : List ℚ).length).length)
            (xsEffective c6rx.xs c6rx.thresholdIdx ([1, 2, 3, 4] : List ℚ).length))) :=
  @get_cross_section_global_spec c6files "U238" 2 c6file c6rx [1, 2, 3, 4]
    (by decide) (by decide) (by decide) rfl rfl rfl rfl (by decide) (by decide) 2

/-! ## Kinematics (src/physics.py)

The mutable `rng` object (contract `random() → float in [0,1)`) is embedded
as an infinite stream of draws plus a cursor; each `random()` call returns
the draw at the cursor and advances it.  The velocity sampler is likewise a
stream of response functions (one per `sample_velocity` call, a function of
the `vn` argument) plus a cursor.  Every Python function that mutates these
objects returns the advanced states explicitly.  Vectors are triples of
reals; `np.linalg.norm` is `norm3`.
-/

/-- The injected random stream: `random()` returns `stream idx` and advances
the cursor. -/
structure RNG where
  stream : ℕ → ℝ
  idx : ℕ

/-- One `rng.random()` call. -/
def RNG.random (r : RNG) : ℝ × RNG :=
  (r.stream r.idx, { r with idx := r.idx + 1 })

/-- The injected velocity sampler: call number `idx` returns
`stream idx vn`. -/
structure Sampler where
  stream : ℕ → ℝ → ℝ
  idx : ℕ

/-- One `sampler.sample_velocity(vn=...)` call. -/
def Sampler.sample_velocity (s : Sampler) (vn : ℝ) : ℝ × Sampler :=
  (s.stream s.idx vn, { s with idx := s.idx + 1 })

/-- A 3-vector. -/
abbrev V3 : Type := ℝ × ℝ × ℝ

/-- Componentwise vector sum. -/
def add3 (a b : V3) : V3 := (a.1 + b.1, a.2.1 + b.2.1, a.2.2 + b.2.2)

/-- Componentwise vector difference. -/
def sub3 (a b : V3) : V3 := (a.1 - b.1, a.2.1 - b.2.1, a.2.2 - b.2.2)

/-- Scalar multiple. -/
def smul3 (c : ℝ) (a : V3) : V3 := (c * a.1, c * a.2.1, c * a.2.2)

/-- `np.dot` of a vector with another. -/
def dot3 (a b : V3) : ℝ := a.1 * b.1 + a.2.1 * b.2.1 + a.2.2 * b.2.2

noncomputable section

/-- `np.linalg.norm`. -/
def norm3 (a : V3) : ℝ := Real.sqrt (dot3 a a)

/-- Neutron mass in kg (`m_n = 1.674927471e-27`). -/
def m_n : ℝ := 1674927471 / 10 ^ 36

/-- eV to Joule conversion (`eV_to_J = 1.60217663e-19`). -/
def eV_to_J : ℝ := 160217663 / 10 ^ 27

/-- Embeds `get_vectors_and_vcm`: returns `(vec_vn, vec_vcm, vec_Vn)` and the
advanced sampler and rng states.  Above 10 eV the target is stationary and
no draw is consumed; otherwise one sampler draw, and two rng draws when the
sampled target speed is positive. -/
def get_vectors_and_vcm (initial_energy A : ℝ) (sampler : Sampler) (rng : RNG) :
    (V3 × V3 × V3) × Sampler × RNG :=
  let v_n := Real.sqrt (2 * initial_energy * eV_to_J / m_n)
  let vts : ℝ × Sampler :=
    if initial_energy > 10 then (0, sampler) else sampler.sample_velocity v_n
  let v_t := vts.1
  let sampler1 := vts.2
  let vec_vn : V3 := (0, 0, v_n)
  let vtr : V3 × RNG :=
    if v_t > 0 then
      let d1 := rng.random
      let d2 := d1.2.random
      let mu_t := 2 * d1.1 - 1
      let phi_t := 2 * Real.pi * d2.1
      let sin_t := Real.sqrt (max 0 (1 - mu_t ^ 2))
      ((v_t * sin_t * Real.cos phi_t, v_t * sin_t * Real.sin phi_t, v_t * mu_t), d2.2)
    else ((0, 0, 0), rng)
  let vec_vt := vtr.1
  let rng1 := vtr.2
  let vec_vcm := smul3 (1 / (A + 1)) (add3 vec_vn (smul3 A vec_vt))
  let vec_Vn := sub3 vec_vn vec_vcm
  ((vec_vn, vec_vcm, vec_Vn), sampler1, rng1)

/-- Embeds `scatter_isotropic_cm`: two rng draws give the CM polar cosine and
azimuth; the result is `magnitude` times the sampled unit direction, paired
with `mu_cm` and the advanced rng. -/
def scatter_isotropic_cm (_vec_Vn : V3) (magnitude : ℝ) (rng : RNG) :
    (V3 × ℝ) × RNG :=
  let d1 := rng.random
  let d2 := d1.2.random
  let mu_cm := 2 * d1.1 - 1
  let phi_cm := 2 * Real.pi * d2.1
  let sin_cm := Real.sqrt (max 0 (1 - mu_cm ^ 2))
  ((smul3 magnitude (sin_cm * Real.cos phi_cm, sin_cm * Real.sin phi_cm, mu_cm), mu_cm),
    d2.2)

/-- Embeds `elastic_scattering`: returns `(E_prime, mu_cm, mu_lab)` plus the
advanced sampler and rng states. -/
def elastic_scattering (initial_energy A : ℝ) (sampler : Sampler) (rng : RNG) :
    (ℝ × ℝ × ℝ) × Sampler × RNG :=
  let g := get_vectors_and_vcm initial_energy A sampler rng
  let vec_vcm := g.1.2.1
  let vec_Vn := g.1.2.2
  let Vn_speed := norm3 vec_Vn
  let sc := scatter_isotropic_cm vec_Vn Vn_speed g.2.2
  let vec_Vn_prime := sc.1.1
  let mu_cm := sc.1.2
  let vec_vn_prime := add3 vec_Vn_prime vec_vcm
  let vn_prime_speed_sq := dot3 vec_vn_prime vec_vn_prime
  let E_prime := 1 / 2 * m_n * vn_prime_speed_sq / eV_to_J
  let vn_prime_speed := Real.sqrt vn_prime_speed_sq
  let mu_lab := if vn_prime_speed > 0 then vec_vn_prime.2.2 / vn_prime_speed else 1
  ((E_prime, mu_cm, mu_lab), g.2.1, sc.2)

/-- The total kinetic energy available in the CM frame as computed inside
`inelastic_scattering`: `E_n_cm * (A + 1) / A` with
`E_n_cm = 0.5 * m_n * Vn_speed^2 / eV_to_J`. -/
def totalKEcm (initial_energy A : ℝ) (sampler : Sampler) (rng : RNG) : ℝ :=
  let g := get_vectors_and_vcm initial_energy A sampler rng
  let Vn_speed := norm3 g.1.2.2
  let E_n_cm := 1 / 2 * m_n * Vn_speed ^ 2 / eV_to_J
  E_n_cm * (A + 1) / A

/-- Embeds `inelastic_scattering` (discrete level, energy loss `Q_value`):
below threshold it falls back to `elastic_scattering` called with the
already-advanced sampler and rng objects; otherwise it subtracts `Q_value`
from the total CM kinetic energy and scatters at the reduced CM speed. -/
def inelastic_scattering (initial_energy A Q_value : ℝ) (sampler : Sampler)
    (rng : RNG) : (ℝ × ℝ × ℝ) × Sampler × RNG :=
  let g := get_vectors_and_vcm initial_energy A sampler rng
  let vec_vcm := g.1.2.1
  let vec_Vn := g.1.2.2
  if totalKEcm initial_energy A sampler rng ≤ Q_value then
    elastic_scattering initial_energy A g.2.1 g.2.2
  else
    let Vn_speed := norm3 vec_Vn
    let E_n_cm := 1 / 2 * m_n * Vn_speed ^ 2 / eV_to_J
    let Total_KE_cm := E_n_cm * (A + 1) / A
    let Total_KE_cm_prime := Total_KE_cm - Q_value
    let E_n_cm_prime := Total_KE_cm_prime * A / (A + 1)
    let Vn_prime_speed := Real.sqrt (2 * E_n_cm_prime * eV_to_J / m_n)
    let sc := scatter_isotropic_cm vec_Vn Vn_prime_speed g.2.2
    let vec_Vn_prime := sc.1.1
    let mu_cm := sc.1.2
    let vec_vn_prime := add3 vec_Vn_prime vec_vcm
    let vn_prime_speed_sq := dot3 vec_vn_prime vec_vn_prime
    let E_prime := 1 / 2 * m_n * vn_prime_speed_sq / eV_to_J
    let vn_prime_speed := Real.sqrt vn_prime_speed_sq
    let mu_lab := if vn_prime_speed > 0 then vec_vn_prime.2.2 / vn_prime_speed else 1
    ((E_prime, mu_cm, mu_lab), g.2.1, sc.2)

/-- Embeds `calculate_E_cm_prime`: the effective lookup energy.  Above 10 eV
it is the lab energy; below, one sampler draw gives the target speed and the
result is the relative-collision energy `0.5 m (v_n^2 + v_t^2) / eV`. -/
def calculate_E_cm_prime (initial_energy A : ℝ) (sampler : Sampler) :
    ℝ × Sampler :=
  if initial_energy > 10 then (initial_energy, sampler)
  else
    let v_n := Real.sqrt (2 * initial_energy * eV_to_J / m_n)
    let vt := sampler.sample_velocity v_n
    let v_rel_sq := v_n ^ 2 + vt.1 ^ 2
    (1 / 2 * m_n * v_rel_sq / eV_to_J, vt.2)

/-- The unnormalized rotated direction computed inside
`sample_new_direction_cosines`: the near-polar branch when
`|w| >= 0.999999`, the general two-branch formula otherwise. -/
def newDirUnnormalized (u v w mu_lab phi : ℝ) : V3 :=
  let sin_theta := Real.sqrt (max 0 (1 - mu_lab ^ 2))
  if |w| ≥ 999999 / 1000000 then
    let sign : ℝ := if w > 0 then 1 else -1
    (sin_theta * Real.cos phi, sin_theta * Real.sin phi, sign * mu_lab)
  else
    let denom := Real.sqrt (max (1 / 10 ^ 12) (1 - w ^ 2))
    (mu_lab * u + sin_theta / denom * (u * w * Real.cos phi - v * Real.sin phi),
     mu_lab * v + sin_theta / denom * (v * w * Real.cos phi + u * Real.sin phi),
     mu_lab * w - sin_theta * denom * Real.cos phi)

/-- Embeds `sample_new_direction_cosines`: sample an azimuth, rotate by the
two-branch formula, renormalize; returns `(u_new, v_new, w_new, phi)` plus
the advanced rng. -/
def sample_new_direction_cosines (u v w mu_lab : ℝ) (rng : RNG) :
    (ℝ × ℝ × ℝ × ℝ) × RNG :=
  let d1 := rng.random
  let phi := 2 * Real.pi * d1.1
  let t := newDirUnnormalized u v w mu_lab phi
  let nrm := Real.sqrt (t.1 ^ 2 + t.2.1 ^ 2 + t.2.2 ^ 2)
  ((t.1 / nrm, t.2.1 / nrm, t.2.2 / nrm, phi), d1.2)

end

lemma dot3_self_nonneg (a : V3) : 0 ≤ dot3 a a := by
  have h : dot3 a a = a.1 ^ 2 + a.2.1 ^ 2 + a.2.2 ^ 2 := by
    simp only [dot3]; ring
  rw [h]
  positivity

lemma m_n_pos : 0 < m_n := by norm_num [m_n]

lemma eV_to_J_pos : 0 < eV_to_J := by norm_num [eV_to_J]

lemma norm3_nonneg (a : V3) : 0 ≤ norm3 a := Real.sqrt_nonneg _

lemma norm3_smul (c : ℝ) (a : V3) : norm3 (smul3 c a) = |c| * norm3 a := by
  simp only [norm3, smul3, dot3]
  rw [show c * a.1 * (c * a.1) + c * a.2.1 * (c * a.2.1) + c * a.2.2 * (c * a.2.2)
      = c ^ 2 * (a.1 * a.1 + a.2.1 * a.2.1 + a.2.2 * a.2.2) from by ring]
  rw [Real.sqrt_mul (sq_nonneg c), Real.sqrt_sq_eq_abs]

lemma quadratic_E_nonneg (v : V3) : 0 ≤ 1 / 2 * m_n * dot3 v v / eV_to_J :=
  div_nonneg (mul_nonneg (mul_nonneg (by norm_num) m_n_pos.le) (dot3_self_nonneg v))
    eV_to_J_pos.le

lemma elastic_E_nonneg (initial_energy A : ℝ) (sampler : Sampler) (rng : RNG) :
    0 ≤ (elastic_scattering initial_energy A sampler rng).1.1 :=
  quadratic_E_nonneg _

/-- C10: both scattering routines return a nonnegative final energy: the
returned `E_prime` is `0.5 * m_n * |v_n_prime|^2 / eV_to_J`, a nonnegative
multiple of a squared norm, in the elastic case, the inelastic case, and the
inelastic below-threshold fallback alike. -/
theorem scattering_final_energy_nonneg (initial_energy A Q_value : ℝ)
    (sampler : Sampler) (rng : RNG) :
    0 ≤ (elastic_scattering initial_energy A sampler rng).1.1
    ∧ 0 ≤ (inelastic_scattering initial_energy A Q_value sampler rng).1.1 := by
  constructor
  · exact elastic_E_nonneg initial_energy A sampler rng
  · by_cases h : totalKEcm initial_energy A sampler rng ≤ Q_value
    · simp only [inelastic_scattering, if_pos h]
      exact elastic_E_nonneg initial_energy A _ _
    · simp only [inelastic_scattering, if_neg h]
      exact quadratic_E_nonneg _

lemma unit_dir_norm (mu phi : ℝ) (h : mu ^ 2 ≤ 1) :
    norm3 (Real.sqrt (max 0 (1 - mu ^ 2)) * Real.cos phi,
           Real.sqrt (max 0 (1 - mu ^ 2)) * Real.sin phi, mu) = 1 := by
  have hmax : max 0 (1 - mu ^ 2) = 1 - mu ^ 2 := max_eq_right (by linarith)
  have hsq : Real.sqrt (max 0 (1 - mu ^ 2)) ^ 2 = 1 - mu ^ 2 := by
    rw [hmax]
    exact Real.sq_sqrt (by linarith)
  have hcs : Real.cos phi ^ 2 + Real.sin phi ^ 2 = 1 := Real.cos_sq_add_sin_sq phi
  have hdot : dot3
      (Real.sqrt (max 0 (1 - mu ^ 2)) * Real.cos phi,
       Real.sqrt (max 0 (1 - mu ^ 2)) * Real.sin phi, mu)
      (Real.sqrt (max 0 (1 - mu ^ 2)) * Real.cos phi,
       Real.sqrt (max 0 (1 - mu ^ 2)) * Real.sin phi, mu) = 1 := by
    simp only [dot3]
    nlinarith [hsq, hcs]
  rw [norm3, hdot, Real.sqrt_one]

lemma scatter_norm_eq (V : V3) (r : RNG) (h0 : 0 ≤ r.stream r.idx)
    (h1 : r.stream r.idx ≤ 1) :
    norm3 (scatter_isotropic_cm V (norm3 V) r).1.1 = norm3 V := by
  have hmusq : (2 * r.stream r.idx - 1) ^ 2 ≤ 1 := by nlinarith
  simp only [scatter_isotropic_cm, RNG.random]
  rw [norm3_smul, unit_dir_norm _ _ hmusq, mul_one, abs_of_nonneg (norm3_nonneg V)]

lemma get_vectors_rng_stream (initial_energy A : ℝ) (sampler : Sampler) (rng : RNG) :
    ((get_vectors_and_vcm initial_energy A sampler rng).2.2).stream = rng.stream := by
  simp only [get_vectors_and_vcm, RNG.random]
  split_ifs <;> rfl

/-- C7: inside `elastic_scattering`, the magnitude of the CM-frame neutron
velocity after the isotropic CM scatter equals its magnitude before: the
scatter is performed at `magnitude = |vec_Vn|`, and the sampled direction is
an exact unit vector for every rng draw in `[0, 1)`. -/
theorem elastic_cm_speed_conserved (initial_energy A : ℝ) (sampler : Sampler)
    (rng : RNG) (hEpos : 0 < initial_energy) (hApos : 0 < A)
    (hdraws : ∀ n, 0 ≤ rng.stream n ∧ rng.stream n < 1) :
    norm3 (scatter_isotropic_cm
        (get_vectors_and_vcm initial_energy A sampler rng).1.2.2
        (norm3 (get_vectors_and_vcm initial_energy A sampler rng).1.2.2)
        (get_vectors_and_vcm initial_energy A sampler rng).2.2).1.1
      = norm3 (get_vectors_and_vcm initial_energy A sampler rng).1.2.2 := by
  have hs := get_vectors_rng_stream initial_energy A sampler rng
  have hd := hdraws ((get_vectors_and_vcm initial_energy A sampler rng).2.2).idx
  refine scatter_norm_eq _ _ ?_ ?_
  · rw [hs]; exact hd.1
  · rw [hs]; exact hd.2.le

theorem elastic_cm_speed_conserved_witness :
    (0 < (100 : ℝ) ∧ 0 < (1 : ℝ)
      ∧ ∀ n, 0 ≤ (fun (_ : ℕ) => (1 : ℝ) / 2) n ∧ (fun (_ : ℕ) => (1 : ℝ) / 2) n < 1)
    ∧ norm3 (scatter_isotropic_cm
        (get_vectors_and_vcm 100 1 ⟨fun _ _ => 1, 0⟩ ⟨fun _ => 1 / 2, 0⟩).1.2.2
        (norm3 (get_vectors_and_vcm 100 1 ⟨fun _ _ => 1, 0⟩ ⟨fun _ => 1 / 2, 0⟩).1.2.2)
        (get_vectors_and_vcm 100 1 ⟨fun _ _ => 1, 0⟩ ⟨fun _ => 1 / 2, 0⟩).2.2).1.1
      = norm3 (get_vectors_and_vcm 100 1 ⟨fun _ _ => 1, 0⟩ ⟨fun _ => 1 / 2, 0⟩).1.2.2 :=
  ⟨⟨by norm_num, by norm_num, fun n => by norm_num⟩,
    elastic_cm_speed_conserved 100 1 ⟨fun _ _ => 1, 0⟩ ⟨fun _ => 1 / 2, 0⟩
      (by norm_num) (by norm_num) (fun n => by norm_num)⟩

lemma newDir_sum_sq (u v w mu phi : ℝ) (hu : u ^ 2 + v ^ 2 + w ^ 2 = 1)
    (hmu1 : -1 ≤ mu) (hmu2 : mu ≤ 1) :
    (newDirUnnormalized u v w mu phi).1 ^ 2 + (newDirUnnormalized u v w mu phi).2.1 ^ 2
      + (newDirUnnormalized u v w mu phi).2.2 ^ 2 = 1 := by
  have hmusq : mu ^ 2 ≤ 1 := by nlinarith
  have hst2 : Real.sqrt (max 0 (1 - mu ^ 2)) ^ 2 = 1 - mu ^ 2 := by
    rw [max_eq_right (by linarith)]
    exact Real.sq_sqrt (by linarith)
  have hcs : Real.cos phi ^ 2 + Real.sin phi ^ 2 = 1 := Real.cos_sq_add_sin_sq phi
  simp only [newDirUnnormalized]
  by_cases hw : |w| ≥ (999999 : ℝ) / 1000000
  · rw [if_pos hw]
    by_cases hw0 : w > 0
    · rw [if_pos hw0]
      simp only
      linear_combination Real.sqrt (max 0 (1 - mu ^ 2)) ^ 2 * hcs + hst2
    · rw [if_neg hw0]
      simp only
      linear_combination Real.sqrt (max 0 (1 - mu ^ 2)) ^ 2 * hcs + hst2
  · rw [if_neg hw]
    simp only
    have hwlt : |w| < 999999 / 1000000 := not_le.mp hw
    have hw2 : 1 / 10 ^ 12 < 1 - w ^ 2 := by
      nlinarith [sq_abs w, abs_nonneg w]
    have hD2 : Real.sqrt (max (1 / 10 ^ 12) (1 - w ^ 2)) ^ 2 = 1 - w ^ 2 := by
      rw [max_eq_right (by linarith)]
      exact Real.sq_sqrt (by linarith)
    have hDpos : 0 < Real.sqrt (max (1 / 10 ^ 12) (1 - w ^ 2)) :=
      Real.sqrt_pos.mpr (lt_of_lt_of_le (by norm_num) (le_max_left _ _))
    set st := Real.sqrt (max 0 (1 - mu ^ 2)) with hstdef
    set D := Real.sqrt (max (1 / 10 ^ 12) (1 - w ^ 2)) with hDdef
    set c := Real.cos phi with hcdef
    set s := Real.sin phi with hsdef
    set K := st / D with hKdef
    have hKD : K * D = st := div_mul_cancel₀ st (ne_of_gt hDpos)
    have hK2 : K ^ 2 * D ^ 2 = st ^ 2 := by
      rw [← hKD]; ring
    linear_combination (mu ^ 2 + K ^ 2 * (w ^ 2 * c ^ 2 + s ^ 2) + 2 * mu * K * w * c) * hu
      + st ^ 2 * hcs
      + (st ^ 2 * c ^ 2 - K ^ 2 * (w ^ 2 * c ^ 2 + s ^ 2) - 2 * mu * K * w * c) * hD2
      + hst2
      + (2 * mu * w * c * D) * hKD
      + (w ^ 2 * c ^ 2 + s ^ 2) * hK2

/-- C8: the direction returned by `sample_new_direction_cosines` is an exact
unit vector for every unit input direction, every polar cosine in `[-1, 1]`
and every sampled azimuth, in both the near-polar and the general branch. -/
theorem sample_new_direction_unit (u v w mu_lab : ℝ) (rng : RNG)
    (hu : u ^ 2 + v ^ 2 + w ^ 2 = 1) (hmu1 : -1 ≤ mu_lab) (hmu2 : mu_lab ≤ 1) :
    Real.sqrt ((sample_new_direction_cosines u v w mu_lab rng).1.1 ^ 2
      + (sample_new_direction_cosines u v w mu_lab rng).1.2.1 ^ 2
      + (sample_new_direction_cosines u v w mu_lab rng).1.2.2.1 ^ 2) = 1 := by
  have hsum := newDir_sum_sq u v w mu_lab (2 * Real.pi * rng.stream rng.idx) hu hmu1 hmu2
  simp only [sample_new_direction_cosines, RNG.random]
  rw [hsum, Real.sqrt_one, div_one, div_one, div_one, hsum, Real.sqrt_one]

theorem sample_new_direction_unit_witness :
    ((0 : ℝ) ^ 2 + (0 : ℝ) ^ 2 + (1 : ℝ) ^ 2 = 1 ∧ -1 ≤ (0 : ℝ) ∧ (0 : ℝ) ≤ 1)
    ∧ Real.sqrt ((sample_new_direction_cosines 0 0 1 0 ⟨fun _ => 0, 0⟩).1.1 ^ 2
        + (sample_new_direction_cosines 0 0 1 0 ⟨fun _ => 0, 0⟩).1.2.1 ^ 2
        + (sample_new_direction_cosines 0 0 1 0 ⟨fun _ => 0, 0⟩).1.2.2.1 ^ 2) = 1 :=
  ⟨⟨by norm_num, by norm_num, by norm_num⟩,
    sample_new_direction_unit 0 0 1 0 ⟨fun _ => 0, 0⟩ (by norm_num) (by norm_num)
      (by norm_num)⟩

/-- C9: `sample_new_direction_cosines` is division-safe and total on unit
directions and polar cosines in `[-1, 1]`: the square-root argument guard is
nonnegative, in the general branch (`|w| < 0.999999`) the guarded divisor
satisfies `1e-12 < 1 - w^2` so it is a strictly positive square root, and
the final normalization divisor is strictly positive for every azimuth. -/
theorem sample_new_direction_division_safe (u v w mu_lab : ℝ)
    (hu : u ^ 2 + v ^ 2 + w ^ 2 = 1) (hmu1 : -1 ≤ mu_lab) (hmu2 : mu_lab ≤ 1) :
    0 ≤ max 0 (1 - mu_lab ^ 2)
    ∧ (¬ |w| ≥ 999999 / 1000000 →
        1 / 10 ^ 12 < 1 - w ^ 2 ∧ 0 < Real.sqrt (max (1 / 10 ^ 12) (1 - w ^ 2)))
    ∧ ∀ phi, 0 < Real.sqrt ((newDirUnnormalized u v w mu_lab phi).1 ^ 2
        + (newDirUnnormalized u v w mu_lab phi).2.1 ^ 2
        + (newDirUnnormalized u v w mu_lab phi).2.2 ^ 2) := by
  refine ⟨le_max_left 0 _, ?_, ?_⟩
  · intro hw
    have hwlt : |w| < 999999 / 1000000 := not_le.mp hw
    have hw2 : 1 / 10 ^ 12 < 1 - w ^ 2 := by
      nlinarith [sq_abs w, abs_nonneg w]
    exact ⟨hw2, Real.sqrt_pos.mpr (lt_of_lt_of_le (by norm_num) (le_max_left _ _))⟩
  · intro phi
    rw [newDir_sum_sq u v w mu_lab phi hu hmu1 hmu2, Real.sqrt_one]
    norm_num

theorem sample_new_direction_division_safe_witness :
    (((3 : ℝ) / 5) ^ 2 + (0 : ℝ) ^ 2 + ((4 : ℝ) / 5) ^ 2 = 1
      ∧ -1 ≤ (1 : ℝ) / 2 ∧ (1 : ℝ) / 2 ≤ 1)
    ∧ (0 ≤ max 0 (1 - ((1 : ℝ) / 2) ^ 2)
      ∧ (¬ |(4 : ℝ) / 5| ≥ 999999 / 1000000 →
          1 / 10 ^ 12 < 1 - ((4 : ℝ) / 5) ^ 2
            ∧ 0 < Real.sqrt (max (1 / 10 ^ 12) (1 - ((4 : ℝ) / 5) ^ 2)))
      ∧ ∀ phi, 0 < Real.sqrt ((newDirUnnormalized (3 / 5) 0 (4 / 5) (1 / 2) phi).1 ^ 2
          + (newDirUnnormalized (3 / 5) 0 (4 / 5) (1 / 2) phi).2.1 ^ 2
          + (newDirUnnormalized (3 / 5) 0 (4 / 5) (1 / 2) phi).2.2 ^ 2)) :=
  ⟨⟨by norm_num, by norm_num, by norm_num⟩,
    sample_new_direction_division_safe (3 / 5) 0 (4 / 5) (1 / 2) (by norm_num)
      (by norm_num) (by norm_num)⟩

noncomputable section

/-- The spec-side variant of `get_cross_sections` for the refinement claim:
written from the spec words, it performs its lookups at the effective lookup
energy produced by the kinematics estimator `calculate_E_cm_prime`, not at
the lab energy. -/
def get_cross_sections_specLookup (files : String → Option (H5File ℝ))
    (element : String) (energy A : ℝ) (sampler : Sampler) (number_density : ℝ) :
    Except PyErr (ℝ × ℝ × ℝ × ℝ) :=
  let E_lookup := (calculate_E_cm_prime energy A sampler).1
  match get_macroscopic_xs files element 2 E_lookup number_density with
  | Except.error e => Except.error e
  | Except.ok Sigma_s =>
    match get_macroscopic_xs files element 102 E_lookup number_density with
    | Except.error e => Except.error e
    | Except.ok Sigma_a =>
      let Sigma_f := match get_macroscopic_xs files element 18 E_lookup number_density with
        | Except.ok v => v
        | Except.error _ => 0
      Except.ok (Sigma_s, Sigma_a, Sigma_f, Sigma_s + Sigma_a + Sigma_f)

end

/-- A local-grid reaction over the reals: grid `[0, 10]`, values `[0, 10]`,
so the microscopic cross section inside the grid equals the energy. -/
def c3rx : RxData ℝ := { energy := some [0, 10], xs := [0, 10], thresholdIdx := 0 }

/-- An element file holding the reaction above at MT=2 only. -/
def c3file : H5File ℝ :=
  { reactions := fun mt => if mt = 2 then some c3rx else none, globalEnergy := none }

/-- A reader base path containing only the U235 file above. -/
def c3files : String → Option (H5File ℝ) :=
  fun e => if e = "U235" then some c3file else none

/-- A velocity sampler returning the neutron speed itself, so the effective
relative-collision energy at 1 eV is exactly 2 eV. -/
def c3sampler : Sampler := ⟨fun _ vn => vn, 0⟩

lemma c3_lookup_at (x : ℝ) (h0 : ¬ x < 0) (h10 : ¬ x > 10) (hx0 : ¬ x ≤ 0) :
    get_cross_section c3files "U235" 2 x = Except.ok x := by
  have helem : isalnumStr "U235" = true := by decide
  have hred : get_cross_section c3files "U235" 2 x =
      handleRead "U235" 2
        (if x < 0 ∨ x > ([0, 10] : List ℝ).getLastD 0 then Except.ok 0
         else npInterp x [0, 10] c3rx.xs) := by
    simp [get_cross_section, helem, readBody, c3files, c3file, c3rx]
  rw [hred, if_neg (by simp [h0]; linarith [not_lt.mp h10])]
  rw [npInterp, if_neg (by simp), if_neg (by simp [c3rx])]
  have hinterp : interp x [0, 10] c3rx.xs = x := by
    simp only [c3rx, interp]
    rw [if_neg hx0, if_pos (not_lt.mp h10)]
    norm_num
  rw [hinterp]
  rfl

lemma c3_absent (mt : ℕ) (hne : ¬ mt = 2) (h1 : 1 ≤ mt) (h2 : mt ≤ 999) (x : ℝ) :
    get_cross_section c3files "U235" mt x = Except.ok 0 := by
  have helem : isalnumStr "U235" = true := by decide
  simp [get_cross_section, helem, h1, h2, readBody, c3files, c3file, hne, handleRead]

lemma c3_E_eff : (calculate_E_cm_prime 1 1 c3sampler).1 = 2 := by
  have harg : (0 : ℝ) ≤ 2 * 1 * eV_to_J / m_n :=
    div_nonneg (by nlinarith [eV_to_J_pos]) m_n_pos.le
  simp only [calculate_E_cm_prime, if_neg (by norm_num : ¬ (1 : ℝ) > 10),
    Sampler.sample_velocity, c3sampler]
  rw [Real.sq_sqrt harg]
  have hm := m_n_pos
  have he := eV_to_J_pos
  field_simp
  ring

lemma c3_macro_at (x : ℝ) (h0 : ¬ x < 0) (h10 : ¬ x > 10) (hx0 : ¬ x ≤ 0) :
    get_macroscopic_xs c3files "U235" 2 x ((10 : ℝ) ^ 24) = Except.ok x := by
  simp only [get_macroscopic_xs, c3_lookup_at x h0 h10 hx0, calculate_macroscopic_xs]
  rw [if_neg (by push_neg at hx0; linarith)]
  congr 1
  field_simp

/-- C3 counterexample: at the concrete sub-cutoff energy 1 eV, with a sampler
returning the neutron speed (so the effective lookup energy is 2 eV) and a
cross section that equals the energy on its grid, `get_cross_sections`
returns the lab-energy lookup `(1, 0, 0, 1)` while the spec-side
effective-energy lookup returns `(2, 0, 0, 2)`: the code does not perform
its lookups at the effective lookup energy. -/
theorem get_cross_sections_lab_vs_effective :
    get_cross_sections c3files "U235" (1 : ℝ) c3sampler ((10 : ℝ) ^ 24)
        = Except.ok (1, 0, 0, 1 + 0 + 0)
    ∧ get_cross_sections_specLookup c3files "U235" (1 : ℝ) 1 c3sampler ((10 : ℝ) ^ 24)
        = Except.ok (2, 0, 0, 2 + 0 + 0)
    ∧ get_cross_sections c3files "U235" (1 : ℝ) c3sampler ((10 : ℝ) ^ 24)
        ≠ get_cross_sections_specLookup c3files "U235" (1 : ℝ) 1 c3sampler ((10 : ℝ) ^ 24) := by
  have hm1 : get_macroscopic_xs c3files "U235" 2 (1 : ℝ) ((10 : ℝ) ^ 24) = Except.ok 1 :=
    c3_macro_at 1 (by norm_num) (by norm_num) (by norm_num)
  have hm2 : get_macroscopic_xs c3files "U235" 2 (2 : ℝ) ((10 : ℝ) ^ 24) = Except.ok 2 :=
    c3_macro_at 2 (by norm_num) (by norm_num) (by norm_num)
  have habs : ∀ mt, ¬ mt = 2 → 1 ≤ mt → mt ≤ 999 → ∀ x : ℝ,
      get_macroscopic_xs c3files "U235" mt x ((10 : ℝ) ^ 24) = Except.ok 0 := by
    intro mt hne h1 h2 x
    rw [get_macroscopic_xs, c3_absent mt hne h1 h2 x]
    simp [calculate_macroscopic_xs]
  have hcode : get_cross_sections c3files "U235" (1 : ℝ) c3sampler ((10 : ℝ) ^ 24)
      = Except.ok (1, 0, 0, 1 + 0 + 0) := by
    rw [get_cross_sections]
    rw [hm1, habs 102 (by norm_num) (by norm_num) (by norm_num),
      habs 18 (by norm_num) (by norm_num) (by norm_num)]
  have hspec : get_cross_sections_specLookup c3files "U235" (1 : ℝ) 1 c3sampler ((10 : ℝ) ^ 24)
      = Except.ok (2, 0, 0, 2 + 0 + 0) := by
    rw [get_cross_sections_specLookup]
    rw [c3_E_eff]
    rw [hm2, habs 102 (by norm_num) (by norm_num) (by norm_num),
      habs 18 (by norm_num) (by norm_num) (by norm_num)]
  refine ⟨hcode, hspec, ?_⟩
  rw [hcode, hspec]
  intro hcontra
  have h1 := congrArg (fun t => match t with | Except.ok p => p.1 | Except.error _ => 0) hcontra
  norm_num at h1

/-- C3 amended: `get_cross_sections` performs all its lookups at the lab
energy unconditionally; this agrees with the effective-lookup-energy
specification exactly when the particle energy exceeds the 10 eV thermal
cutoff, where `calculate_E_cm_prime` returns the lab energy. -/
theorem get_cross_sections_lab_energy_above_cutoff
    (files : String → Option (H5File ℝ)) (element : String) (energy A : ℝ)
    (sampler : Sampler) (number_density : ℝ) (h : energy > 10) :
    get_cross_sections files element energy sampler number_density
      = get_cross_sections_specLookup files element energy A sampler number_density := by
  simp only [get_cross_sections, get_cross_sections_specLookup, calculate_E_cm_prime,
    if_pos h]
  cases get_macroscopic_xs files element 2 energy number_density with
  | error e => rfl
  | ok Sigma_s =>
    cases get_macroscopic_xs files element 102 energy number_density with
    | error e => rfl
    | ok Sigma_a =>
      cases get_macroscopic_xs files element 18 energy number_density with
      | error e => rfl
      | ok v => rfl

theorem get_cross_sections_lab_energy_above_cutoff_witness :
    ((20 : ℝ) > 10)
    ∧ get_cross_sections c3files "U235" (20 : ℝ) c3sampler 1
        = get_cross_sections_specLookup c3files "U235" (20 : ℝ) 1 c3sampler 1 :=
  ⟨by norm_num,
    get_cross_sections_lab_energy_above_cutoff c3files "U235" 20 1 c3sampler 1
      (by norm_num)⟩

/-- A velocity sampler always returning 1 m/s (positive, so the free-gas
target-direction draws are consumed below the cutoff). -/
noncomputable def c4sampler : Sampler := ⟨fun _ _ => 1, 0⟩

/-- A random stream always returning 1/2. -/
noncomputable def c4rng : RNG := ⟨fun _ => 1 / 2, 0⟩

lemma scatter_rng_state (V : V3) (m : ℝ) (r : RNG) :
    (scatter_isotropic_cm V m r).2 = { stream := r.stream, idx := r.idx + 2 } := by
  simp only [scatter_isotropic_cm, RNG.random]

lemma elastic_states (initial_energy A : ℝ) (sampler : Sampler) (rng : RNG) :
    (elastic_scattering initial_energy A sampler rng).2 =
      ((get_vectors_and_vcm initial_energy A sampler rng).2.1,
       { stream := (get_vectors_and_vcm initial_energy A sampler rng).2.2.stream,
         idx := (get_vectors_and_vcm initial_energy A sampler rng).2.2.idx + 2 }) := by
  simp only [elastic_scattering]
  rw [scatter_rng_state]

lemma get_vectors_states_low (si ri : ℕ) :
    (get_vectors_and_vcm 1 1 ⟨fun _ _ => 1, si⟩ ⟨fun _ => 1 / 2, ri⟩).2
      = (⟨fun _ _ => 1, si + 1⟩, ⟨fun _ => 1 / 2, ri + 2⟩) := by
  simp only [get_vectors_and_vcm, Sampler.sample_velocity, RNG.random]
  rw [if_neg (by norm_num : ¬ (1 : ℝ) > 10)]
  norm_num

lemma c4_threshold : totalKEcm 1 1 c4sampler c4rng ≤ 1 := by
  have hm := m_n_pos
  have he := eV_to_J_pos
  have harg : (0 : ℝ) ≤ 2 * eV_to_J / m_n :=
    div_nonneg (by nlinarith) hm.le
  simp only [totalKEcm, get_vectors_and_vcm, Sampler.sample_velocity, RNG.random,
    c4sampler, c4rng]
  rw [if_neg (by norm_num : ¬ (1 : ℝ) > 10)]
  norm_num [norm3, dot3, sub3, add3, smul3]
  have hc := Real.cos_sq_add_sin_sq (2 * Real.pi * (1 / 2))
  set c := Real.cos (2 * Real.pi * (1 / 2)) with hcdef
  set s := Real.sin (2 * Real.pi * (1 / 2)) with hsdef
  set v := Real.sqrt (2 * eV_to_J / m_n) with hvdef
  have hv2 : v ^ 2 = 2 * eV_to_J / m_n := Real.sq_sqrt harg
  have hX : 1 / 2 * c * (1 / 2 * c) + 1 / 2 * s * (1 / 2 * s)
      + (v - 1 / 2 * v) * (v - 1 / 2 * v) = 1 / 4 + v ^ 2 / 4 := by
    linear_combination (1 / 4 : ℝ) * hc
  rw [hX, Real.sq_sqrt (by positivity), hv2]
  have key : 1 / 2 * m_n * (1 / 4 + 2 * eV_to_J / m_n / 4) / eV_to_J * 2
      = m_n / eV_to_J / 4 + 1 / 2 := by
    field_simp
    ring
  rw [key]
  have hratio : m_n / eV_to_J ≤ 1 := by
    rw [div_le_one he]
    norm_num [m_n, eV_to_J]
  linarith

/-- C4 counterexample: at 1 eV (below the thermal cutoff) with unit target
speed, the below-threshold inelastic call falls back to elastic scattering
only after consuming one sampler draw and two rng draws, so it finishes with
rng cursor 6 and sampler cursor 2, while the direct elastic call with the
same arguments finishes with rng cursor 4 and sampler cursor 1: the fallback
does not consume the same random draws as the direct elastic call. -/
theorem inelastic_fallback_draw_mismatch :
    totalKEcm 1 1 c4sampler c4rng ≤ 1
    ∧ (inelastic_scattering 1 1 1 c4sampler c4rng).2.2.idx = 6
    ∧ (elastic_scattering 1 1 c4sampler c4rng).2.2.idx = 4
    ∧ (inelastic_scattering 1 1 1 c4sampler c4rng).2.1.idx = 2
    ∧ (elastic_scattering 1 1 c4sampler c4rng).2.1.idx = 1
    ∧ ¬ ((inelastic_scattering 1 1 1 c4sampler c4rng).2
        = (elastic_scattering 1 1 c4sampler c4rng).2) := by
  have hT := c4_threshold
  have h00 : (get_vectors_and_vcm 1 1 c4sampler c4rng).2
      = (⟨fun _ _ => 1, 1⟩, ⟨fun _ => 1 / 2, 2⟩) := by
    have := get_vectors_states_low 0 0
    simpa [c4sampler, c4rng] using this
  have h12 : (get_vectors_and_vcm 1 1 ⟨fun _ _ => 1, 1⟩ ⟨fun _ => 1 / 2, 2⟩).2
      = (⟨fun _ _ => 1, 2⟩, ⟨fun _ => 1 / 2, 4⟩) := by
    have := get_vectors_states_low 1 2
    simpa using this
  have hfall : inelastic_scattering 1 1 1 c4sampler c4rng
      = elastic_scattering 1 1 ⟨fun _ _ => 1, 1⟩ ⟨fun _ => 1 / 2, 2⟩ := by
    simp only [inelastic_scattering, if_pos hT]
    rw [congrArg Prod.fst h00, congrArg Prod.snd h00]
  have hinidx : (inelastic_scattering 1 1 1 c4sampler c4rng).2.2.idx = 6 := by
    rw [hfall, elastic_states]
    simp only
    rw [congrArg (fun t : Sampler × RNG => t.2.idx) h12]
  have helidx : (elastic_scattering 1 1 c4sampler c4rng).2.2.idx = 4 := by
    rw [elastic_states]
    simp only
    rw [congrArg (fun t : Sampler × RNG => t.2.idx) h00]
  have hinsam : (inelastic_scattering 1 1 1 c4sampler c4rng).2.1.idx = 2 := by
    rw [hfall, elastic_states]
    simp only
    rw [congrArg (fun t : Sampler × RNG => t.1.idx) h12]
  have helsam : (elastic_scattering 1 1 c4sampler c4rng).2.1.idx = 1 := by
    rw [elastic_states]
    simp only
    rw [congrArg (fun t : Sampler × RNG => t.1.idx) h00]
  refine ⟨hT, hinidx, helidx, hinsam, helsam, ?_⟩
  intro hcontra
  have hsame := congrArg (fun t : Sampler × RNG => t.2.idx) hcontra
  simp only at hsame
  rw [hinidx, helidx] at hsame
  norm_num at hsame

lemma c4_threshold_high : totalKEcm 100 1 c4sampler c4rng ≤ 100 := by
  have hm := m_n_pos
  have he := eV_to_J_pos
  have harg : (0 : ℝ) ≤ 200 * eV_to_J / m_n :=
    div_nonneg (by nlinarith) hm.le
  simp only [totalKEcm, get_vectors_and_vcm, Sampler.sample_velocity, RNG.random,
    c4sampler, c4rng]
  rw [if_pos (by norm_num : (100 : ℝ) > 10)]
  norm_num [norm3, dot3, sub3, add3, smul3]
  set v := Real.sqrt (200 * eV_to_J / m_n) with hvdef
  have hv2 : v ^ 2 = 200 * eV_to_J / m_n := Real.sq_sqrt harg
  have hX : (v - 1 / 2 * v) * (v - 1 / 2 * v) = v ^ 2 / 4 := by ring
  rw [hX, Real.sq_sqrt (by positivity), hv2]
  have key : 1 / 2 * m_n * (200 * eV_to_J / m_n / 4) / eV_to_J * 2 = 50 := by
    field_simp
    ring
  rw [key]
  norm_num

/-- C4 amended: above the 10 eV thermal cutoff the pre-threshold kinematics
phase consumes no sampler or rng draws, so whenever the total CM kinetic
energy does not exceed the Q-value, `inelastic_scattering` returns exactly
the direct `elastic_scattering` result with the same draw consumption.
Below the cutoff the fallback first consumes the target-motion draws and
then performs a fresh elastic call on the advanced streams. -/
theorem inelastic_fallback_elastic_above_cutoff (initial_energy A Q_value : ℝ)
    (sampler : Sampler) (rng : RNG) (hE : initial_energy > 10)
    (hQ : totalKEcm initial_energy A sampler rng ≤ Q_value) :
    inelastic_scattering initial_energy A Q_value sampler rng
      = elastic_scattering initial_energy A sampler rng := by
  have hstates : (get_vectors_and_vcm initial_energy A sampler rng).2
      = (sampler, rng) := by
    simp only [get_vectors_and_vcm, Sampler.sample_velocity, RNG.random]
    rw [if_pos hE]
    norm_num
  simp only [inelastic_scattering, if_pos hQ]
  rw [congrArg Prod.fst hstates, congrArg Prod.snd hstates]

theorem inelastic_fallback_elastic_above_cutoff_witness :
    ((100 : ℝ) > 10 ∧ totalKEcm 100 1 c4sampler c4rng ≤ 100)
    ∧ inelastic_scattering 100 1 100 c4sampler c4rng
        = elastic_scattering 100 1 c4sampler c4rng :=
  ⟨⟨by norm_num, c4_threshold_high⟩,
    inelastic_fallback_elastic_above_cutoff 100 1 100 c4sampler c4rng
      (by norm_num) c4_threshold_high⟩

end PyNeut
